import Mathlib

/-!
Verification of the AR-cities horizon overlay core.

The TypeScript source is shallowly embedded here:

* `geo.ts`       : `jsTrunc`/`jsMod` model JavaScript `%` (truncated remainder)
                   on exact numbers; `wrap360`, `wrap180` are translated verbatim.
* `projection.ts`: `azimuthToScreenX`, `pitchToScreenY`, `estimateVfovDeg`,
                   `isWithinFov`, `edgeSide`.
* `renderer.ts`  : `updateAlpha`, `rectsOverlap`, `findNonOverlappingY` and the
                   per-candidate placement loop of `render` (drawing-surface
                   calls are recorded as `DrawOp`s; `ctx.measureText` is an
                   oracle supplied per candidate as `textW`; the haversine
                   distance and initial bearing of each candidate are inputs to
                   the frame, since the claims under scrutiny concern the
                   placement logic from the `distKm <= maxDistanceKm` filter
                   onward, not the trigonometry that produced those numbers).
* `sensors.ts`   : the source-selection / fallback state machine of
                   `startOrientation`, the complementary-filter event handlers,
                   the virtual pointer-drag source, and the output smoothing
                   (`smoothAngle`).

Numbers are modelled as exact rationals (or reals where `Math.exp` appears);
floating-point rounding is out of scope.
-/

namespace HorizonAR

/-! ## Angle wrapping (`geo.ts`) -/

section AngleDefs

variable {α : Type} [LinearOrderedField α] [FloorRing α]

/-- JavaScript number truncation (round toward zero), used by the `%` operator. -/
def jsTrunc (x : α) : ℤ := if x < 0 then ⌈x⌉ else ⌊x⌋

/-- JavaScript remainder `a % b`: `a - b * trunc(a / b)` (sign follows `a`). -/
def jsMod (a b : α) : α := a - b * (jsTrunc (a / b) : α)

/-- `geo.ts` `wrap360`: `let d = deg % 360; if (d < 0) d += 360; return d`. -/
def wrap360 (deg : α) : α :=
  let d := jsMod deg 360
  if d < 0 then d + 360 else d

/-- `geo.ts` `wrap180`: `((deg + 180) % 360 + 360) % 360 - 180`. -/
def wrap180 (deg : α) : α := jsMod (jsMod (deg + 180) 360 + 360) 360 - 180

end AngleDefs

/-! ## Screen projector (`projection.ts`) -/

/-- `azimuthToScreenX`: `(deltaAzDeg / hfovDeg) * (width/2) + width/2`, clamped to `[0, width]`. -/
def azimuthToScreenX (deltaAzDeg hfovDeg width : ℚ) : ℚ :=
  let halfWidth := width / 2
  let x := deltaAzDeg / hfovDeg * halfWidth + halfWidth
  max 0 (min width x)

/-- `pitchToScreenY`: `(-pitchDeg / vfovDeg) * (height/2) + height/2`, clamped to `[0, height]`. -/
def pitchToScreenY (pitchDeg vfovDeg height : ℚ) : ℚ :=
  let halfHeight := height / 2
  let y := -pitchDeg / vfovDeg * halfHeight + halfHeight
  max 0 (min height y)

/-- `estimateVfovDeg`: `hfovDeg * (height / max(1, width))`. -/
def estimateVfovDeg (hfovDeg width height : ℚ) : ℚ :=
  hfovDeg * (height / max 1 width)

/-- `isWithinFov`: `deltaAzDeg >= -hfov/2 && deltaAzDeg <= hfov/2`. -/
def isWithinFov (deltaAzDeg hfovDeg : ℚ) : Bool :=
  decide (-(hfovDeg / 2) ≤ deltaAzDeg) && decide (deltaAzDeg ≤ hfovDeg / 2)

inductive Side
  | left
  | right
deriving DecidableEq, Repr

/-- `edgeSide`: `left` when the azimuth delta is negative, else `right`. -/
def edgeSide (deltaAzDeg : ℚ) : Side :=
  if deltaAzDeg < 0 then .left else .right

/-! ## Layout / declutter engine (`renderer.ts`) -/

/-- A placement rectangle `{x, y, w, h}` in pixel space. -/
structure Rect where
  x : ℚ
  y : ℚ
  w : ℚ
  h : ℚ
deriving DecidableEq, Repr

/-- `rectsOverlap`: `!(a.x + a.w < b.x || b.x + b.w < a.x || a.y + a.h < b.y || b.y + b.h < a.y)`. -/
def rectsOverlap (a b : Rect) : Bool :=
  !(decide (a.x + a.w < b.x) || decide (b.x + b.w < a.x) ||
    decide (a.y + a.h < b.y) || decide (b.y + b.h < a.y))

/-- The candidate `y` offsets probed by `findNonOverlappingY`:
`baseY`, then `baseY - i*step` for `i = 1..maxSteps`, then `baseY + i*step`. -/
def candidateYs (baseY step : ℚ) (maxSteps : ℕ) : List ℚ :=
  baseY :: ((List.range maxSteps).map (fun i => baseY - (i + 1) * step) ++
            (List.range maxSteps).map (fun i => baseY + (i + 1) * step))

/-- Loop body of `findNonOverlappingY`: clamp each candidate `y` into
`[0, height - rect.h]`, skip values already tried, and return the first one
whose rectangle overlaps nothing in `placed`. -/
def findAux (rect : Rect) (placed : List Rect) (height : ℚ) :
    List ℚ → List ℚ → Option ℚ
  | [], _ => none
  | c :: cs, tried =>
    let y := max 0 (min (height - rect.h) c)
    if y ∈ tried then findAux rect placed height cs tried
    else if placed.any (fun p => rectsOverlap p ⟨rect.x, y, rect.w, rect.h⟩) then
      findAux rect placed height cs (y :: tried)
    else some y

/-- `findNonOverlappingY(rect, placed, height, maxSteps)` from `renderer.ts`. -/
def findNonOverlappingY (rect : Rect) (placed : List Rect) (height : ℚ)
    (maxSteps : ℕ) : Option ℚ :=
  findAux rect placed height (candidateYs rect.y (max 12 (rect.h + 6)) maxSteps) []

/-- `keyOf`: entity key `name|country`. -/
def keyOf (name country : String) : String := name ++ "|" ++ country

/-- Fade-in rate in alpha per second (`fadeInPerSec` in `updateAlpha`). -/
def fadeInPerSec : ℚ := 4

/-- Fade-out rate in alpha per second (`fadeOutPerSec` in `updateAlpha`). -/
def fadeOutPerSec : ℚ := 3

/-- First-match lookup in the fade-alpha association list (JS `Map.get`). -/
def alookup (k : String) : List (String × ℚ) → Option ℚ
  | [] => none
  | (k', v) :: m => if k' = k then some v else alookup k m

/-- `labelAlpha.get(k) ?? 0`. -/
def alphaGet (m : List (String × ℚ)) (k : String) : ℚ := (alookup k m).getD 0

/-- The new alpha for one key:
`vis ? min(1, cur + fadeInPerSec*dt) : max(0, cur - fadeOutPerSec*dt)`. -/
def fadeNext (vis : Bool) (cur dt : ℚ) : ℚ :=
  if vis then min 1 (cur + fadeInPerSec * dt)
  else max 0 (cur - fadeOutPerSec * dt)

/-- Loop body of `updateAlpha` for one key of the union: the new entry for the
key, or `none` when the entry is deleted (`next <= 0 && !vis`). -/
def fadeStep (targetVisible : List String) (dt : ℚ) (m : List (String × ℚ))
    (k : String) : Option (String × ℚ) :=
  let cur := alphaGet m k
  let vis := decide (k ∈ targetVisible)
  let next := fadeNext vis cur dt
  if next ≤ 0 ∧ vis = false then none else some (k, next)

/-- `updateAlpha(targetVisible, dt)`: for every key in the union of the stored
map and the target set, fade in (capped at 1) when targeted, else fade out
(floored at 0); a key whose new alpha is `<= 0` and which is not targeted is
deleted. The JS `Map` is modelled as an association list; iteration order of
the key union is immaterial to the resulting key-value mapping. -/
def updateAlpha (targetVisible : List String) (dt : ℚ)
    (m : List (String × ℚ)) : List (String × ℚ) :=
  ((m.map Prod.fst ++ targetVisible).dedup).filterMap (fadeStep targetVisible dt m)

/-- Per-frame render inputs that the placement logic reads (a `RendererInput`
snapshot minus the external drawing surface and the raw city list). -/
structure RenderParams where
  width : ℚ
  height : ℚ
  hfovDeg : ℚ
  pitchDeg : ℚ
  headingDeg : ℚ
  maxDistanceKm : ℚ
  showOffscreenIndicators : Bool
deriving Repr

/-- A per-frame candidate: city identity and population together with its
haversine distance, initial bearing (computed upstream of the placement loop)
and the measured text width of its composed label (`ctx.measureText` oracle). -/
structure Candidate where
  name : String
  country : String
  population : ℚ
  distKm : ℚ
  bearing : ℚ
  textW : ℚ
deriving DecidableEq, Repr

/-- Key of a candidate's city. -/
def keyOfCand (c : Candidate) : String := keyOf c.name c.country

/-- Stable insertion of a candidate into a population-descending list: an
earlier input candidate precedes later ones of equal population. -/
def insertByPop (c : Candidate) : List Candidate → List Candidate
  | [] => [c]
  | d :: ds => if d.population ≤ c.population then c :: d :: ds
               else d :: insertByPop c ds

/-- `candidates.sort((a, b) => b.c.population - a.c.population)` — stable,
population-descending. -/
def sortByPopDesc : List Candidate → List Candidate
  | [] => []
  | c :: cs => insertByPop c (sortByPopDesc cs)

/-- A draw instruction issued against the external 2D surface. -/
inductive DrawOp
  | label (key : String) (rect : Rect) (alpha : ℚ)
  | chevron (key : String) (side : Side) (rect : Rect) (alpha : ℚ)
deriving DecidableEq, Repr

/-- JS `Set.add`: append the key if absent. -/
def addKey (k : String) (l : List String) : List String :=
  if k ∈ l then l else l ++ [k]

/-- The mutable locals of one `render` call: the on-screen pool, the two edge
lanes, this frame's visible-target key set, and the issued draw instructions. -/
structure FrameState where
  placed : List Rect
  edgeLeft : List Rect
  edgeRight : List Rect
  visibleKeys : List String
  draws : List DrawOp
deriving Repr

def initFrameState : FrameState := ⟨[], [], [], [], []⟩

/-- On-screen branch of the loop body: run the vertical search against the
on-screen pool; on success commit the rectangle, record the key as a visible
target, and draw the label card unless the fade alpha is at most 0.01. -/
def stepOnScreen (height : ℚ) (alpha0 : List (String × ℚ)) (st : FrameState)
    (key : String) (rect : Rect) (maxSteps : ℕ) : FrameState :=
  match findNonOverlappingY rect st.placed height maxSteps with
  | none => st
  | some y =>
    let rect' := { rect with y := y }
    let st' := { st with placed := st.placed ++ [rect'],
                         visibleKeys := addKey key st.visibleKeys }
    let alpha := alphaGet alpha0 key
    if alpha ≤ 1 / 100 then st'
    else { st' with draws := st'.draws ++ [.label key rect' alpha] }

/-- Edge-indicator placement: run the vertical search against the side's own
lane; on success commit the rectangle to that lane and draw the chevron. -/
def placeEdge (height : ℚ) (st : FrameState) (key : String) (alpha : ℚ)
    (side : Side) (edgeRect : Rect) (maxSteps : ℕ) : FrameState :=
  let used := if side = .left then st.edgeLeft else st.edgeRight
  match findNonOverlappingY edgeRect used height maxSteps with
  | none => st
  | some y =>
    let r := { edgeRect with y := y }
    if side = .left then
      { st with edgeLeft := st.edgeLeft ++ [r],
                draws := st.draws ++ [.chevron key .left r alpha] }
    else
      { st with edgeRight := st.edgeRight ++ [r],
                draws := st.draws ++ [.chevron key .right r alpha] }

/-- The edge-indicator rectangle for a side (`margin = 6`): anchored at the
left margin, or at `width - margin - w` on the right. -/
def edgeRectFor (p : RenderParams) (side : Side) (ey w h : ℚ) : Rect :=
  match side with
  | .left => ⟨6, ey, w, h⟩
  | .right => ⟨p.width - 6 - w, ey, w, h⟩

/-- Off-screen branch of the loop body: always record the key as a visible
target; when indicators are enabled and the alpha exceeds 0.01, build the
side's indicator rectangle and attempt edge placement. -/
def stepOffScreen (p : RenderParams) (horizonY : ℚ)
    (alpha0 : List (String × ℚ)) (st : FrameState) (key : String)
    (deltaAz w h : ℚ) : FrameState :=
  if p.showOffscreenIndicators = false then
    { st with visibleKeys := addKey key st.visibleKeys }
  else
    let st' := { st with visibleKeys := addKey key st.visibleKeys }
    let alpha := alphaGet alpha0 key
    if alpha ≤ 1 / 100 then st'
    else
      let side := edgeSide deltaAz
      let ey := max 0 (min (p.height - h) (horizonY - h / 2))
      let edgeRect : Rect := edgeRectFor p side ey w h
      placeEdge p.height st' key alpha side edgeRect
        ((⌈p.height / (edgeRect.h + 6)⌉ + 2).toNat)

/-- The desired label rectangle: centred on the azimuth's screen `x` (clamped
into `[4, width - w - 4]`), anchored just above the horizon line. -/
def labelRect (p : RenderParams) (horizonY deltaAz w h : ℚ) : Rect :=
  let x := azimuthToScreenX deltaAz p.hfovDeg p.width
  let yBase := max 0 (min (p.height - 24) (horizonY - 6))
  ⟨max 4 (min (p.width - w - 4) (x - w / 2)), yBase - h, w, h⟩

/-- One iteration of the `for (const item of candidates)` loop in `render`. -/
def stepCandidate (p : RenderParams) (horizonY : ℚ) (alpha0 : List (String × ℚ))
    (st : FrameState) (it : Candidate) : FrameState :=
  let key := keyOfCand it
  let deltaAz := wrap180 (it.bearing - p.headingDeg)
  let w := it.textW + 12
  let h : ℚ := 24
  let rect := labelRect p horizonY deltaAz w h
  if isWithinFov deltaAz p.hfovDeg then
    stepOnScreen p.height alpha0 st key rect ((⌈p.height / (rect.h + 6)⌉ + 2).toNat)
  else
    stepOffScreen p horizonY alpha0 st key deltaAz w h

/-- One `render` frame: filter by distance, sort by population, run the
placement loop, then advance the fade-alpha map. Returns the final frame state
and the new fade map. -/
def renderFrame (p : RenderParams) (cities : List Candidate)
    (alpha0 : List (String × ℚ)) (dt : ℚ) : FrameState × List (String × ℚ) :=
  let vfovDeg := estimateVfovDeg p.hfovDeg p.width p.height
  let horizonY := pitchToScreenY p.pitchDeg vfovDeg p.height
  let candidates := cities.filter (fun c => decide (c.distKm ≤ p.maxDistanceKm))
  let sorted := sortByPopDesc candidates
  let st := sorted.foldl (stepCandidate p horizonY alpha0) initFrameState
  (st, updateAlpha st.visibleKeys dt alpha0)

/-- A pool is collision-free: no two of its rectangles overlap. -/
def NoOverlapPool (l : List Rect) : Prop :=
  l.Pairwise (fun a b => rectsOverlap a b = false)

/-- A rectangle lies entirely inside the `[0,width] × [0,height]` viewport. -/
def InView (width height : ℚ) (r : Rect) : Prop :=
  0 ≤ r.x ∧ r.x + r.w ≤ width ∧ 0 ≤ r.y ∧ r.y + r.h ≤ height

/-- All three placement pools of a frame state are collision-free. -/
def PoolsOk (st : FrameState) : Prop :=
  NoOverlapPool st.placed ∧ NoOverlapPool st.edgeLeft ∧ NoOverlapPool st.edgeRight

/-- All rectangles of all three pools lie inside the viewport. -/
def PoolsInView (width height : ℚ) (st : FrameState) : Prop :=
  (∀ r ∈ st.placed, InView width height r) ∧
  (∀ r ∈ st.edgeLeft, InView width height r) ∧
  (∀ r ∈ st.edgeRight, InView width height r)

/-- Whether a draw instruction is an edge-indicator chevron. -/
def DrawOp.isChevron : DrawOp → Bool
  | .chevron _ _ _ _ => true
  | .label _ _ _ => false

/-! ## Orientation fusion engine (`sensors.ts`) -/

/-- Output heading smoothing: `wrap360(prev + wrap180(next - prev) * (1 - exp(-factor)))`. -/
noncomputable def smoothAngle (prev next factor : ℝ) : ℝ :=
  wrap360 (prev + wrap180 (next - prev) * (1 - Real.exp (-factor)))

/-- Virtual-drag heading sensitivity: 0.1 degrees per pixel. -/
def sensitivityHeading : ℚ := 1 / 10

/-- Virtual-drag pitch sensitivity: 0.1 degrees per pixel. -/
def sensitivityPitch : ℚ := 1 / 10

/-- Complementary-filter accelerometer trust (`accelGain = 0.02`). -/
def accelGain : ℚ := 1 / 50

/-- Gentle yaw correction gain (`yawCorrectionGain = 0.01`). -/
def yawCorrectionGain : ℚ := 1 / 100

/-- Grace period (ms) of the `setTimeout` that arms the virtual fallback. The
expiry of this timer is delivered to the model as the `timeoutFire` event. -/
def fallbackDelayMs : ℚ := 2000

inductive OrientationSourceK
  | genericSensor
  | deviceFusion
  | virtual
deriving DecidableEq, Repr

/-- The mutable closure state of `startOrientation`: selected source, the
`yaw`/`pitch`/`roll` accumulators, the gyro timestamp and heading measurement
of the complementary filter, whether the fusion and virtual handlers are
registered, and the virtual source's drag-tracking locals. -/
structure EngineState where
  src : OrientationSourceK
  yaw : ℚ
  pitch : ℚ
  roll : ℚ
  lastGyroTs : ℚ
  headingMeas : Option ℚ
  fusionActive : Bool
  virtualActive : Bool
  dragging : Bool
  lastX : ℚ
  lastY : ℚ
deriving DecidableEq, Repr

/-- Events handled on the engine's single-threaded timeline.

* `genericReading z y x` — a generic-sensor reading; the payload is the
  yaw/pitch/roll produced by `quatToEuler` from the sensor quaternion (an
  oracle, since `atan2`/`asin` have no rational form).
* `orientation wch alpha` — a `deviceorientation` event carrying the optional
  `webkitCompassHeading` and `alpha` fields.
* `motion now rot tilt` — a `devicemotion` event at time `now` with optional
  rotation rates `(gz, gx, gy)`; `tilt` is the gravity-derived pair
  `(pitchAcc, rollAcc)` that the handler computes with `atan2`/`hypot` from
  `accelerationIncludingGravity` (again an oracle for the transcendental step).
* `timeoutFire` — expiry of the 2000 ms fallback timer.
* pointer events for the virtual drag source. -/
inductive SensorEvent
  | genericReading (z y x : ℚ)
  | orientation (webkitCompassHeading : Option ℚ) (alpha : Option ℚ)
  | motion (now : ℚ) (rot : Option (ℚ × ℚ × ℚ)) (tilt : Option (ℚ × ℚ))
  | timeoutFire
  | pointerDown (x y : ℚ)
  | pointerUp
  | pointerMove (x y : ℚ)
deriving DecidableEq, Repr

/-- `startOrientation` initialisation: if the generic sensor constructor exists
and does not throw, the generic path is active; otherwise the device-fusion
listeners are registered and the fallback timer armed. -/
def initEngine (genericOk : Bool) : EngineState :=
  if genericOk then
    { src := .genericSensor, yaw := 0, pitch := 0, roll := 0, lastGyroTs := 0,
      headingMeas := none, fusionActive := false, virtualActive := false,
      dragging := false, lastX := 0, lastY := 0 }
  else
    { src := .deviceFusion, yaw := 0, pitch := 0, roll := 0, lastGyroTs := 0,
      headingMeas := none, fusionActive := true, virtualActive := false,
      dragging := false, lastX := 0, lastY := 0 }

/-- One event on the engine's timeline (`onreading`, `onDO`, `onDM`, the
fallback timer, and the virtual source's pointer handlers). -/
def stepEngine (s : EngineState) (e : SensorEvent) : EngineState :=
  match e with
  | .genericReading z y x =>
    if s.src = .genericSensor then
      { s with yaw := wrap360 z, pitch := y, roll := x }
    else s
  | .orientation wch alpha =>
    if s.fusionActive then
      match wch, alpha with
      | some hdg, _ => { s with headingMeas := some (wrap360 hdg) }
      | none, some a => { s with headingMeas := some (wrap360 a) }
      | none, none => s
    else s
  | .motion now rot tilt =>
    if s.fusionActive then
      let dt := if s.lastGyroTs ≠ 0 then (now - s.lastGyroTs) / 1000 else 0
      let s1 := { s with lastGyroTs := now }
      let s2 := match rot with
        | some (gz, gx, gy) =>
          { s1 with yaw := wrap360 (s1.yaw + gz * dt),
                    pitch := s1.pitch + gx * dt,
                    roll := s1.roll + gy * dt }
        | none => s1
      let s3 := match tilt with
        | some (pAcc, rAcc) =>
          { s2 with pitch := s2.pitch * (1 - accelGain) + pAcc * accelGain,
                    roll := s2.roll * (1 - accelGain) + rAcc * accelGain }
        | none => s2
      match s3.headingMeas with
      | some hm =>
        { s3 with yaw := wrap360 (s3.yaw + wrap180 (hm - s3.yaw) * yawCorrectionGain) }
      | none => s3
    else s
  | .timeoutFire =>
    if s.fusionActive = true ∧ s.lastGyroTs = 0 ∧ s.headingMeas = none then
      { s with src := .virtual, virtualActive := true, dragging := false,
               lastX := 0, lastY := 0 }
    else s
  | .pointerDown x y =>
    if s.virtualActive then { s with dragging := true, lastX := x, lastY := y }
    else s
  | .pointerUp =>
    if s.virtualActive then { s with dragging := false } else s
  | .pointerMove x y =>
    if s.virtualActive = true ∧ s.dragging = true then
      let dx := x - s.lastX
      let dy := y - s.lastY
      { s with lastX := x, lastY := y,
               yaw := wrap360 (s.yaw + dx * sensitivityHeading),
               pitch := max (-89) (min 89 (s.pitch - dy * sensitivityPitch)) }
    else s

/-- Run the engine over a list of timeline events. -/
def runEngine (s : EngineState) (events : List SensorEvent) : EngineState :=
  events.foldl stepEngine s

/-- `true` for `devicemotion` events. -/
def isMotionEvent : SensorEvent → Bool
  | .motion _ _ _ => true
  | _ => false

/-- `true` for `deviceorientation` events that carry a heading measurement
(a numeric `webkitCompassHeading` or `alpha`). -/
def carriesHeading : SensorEvent → Bool
  | .orientation (some _) _ => true
  | .orientation none (some _) => true
  | _ => false

/-! ## Angle-wrapping lemmas -/

section AngleLemmas

variable {α : Type} [LinearOrderedField α] [FloorRing α]

lemma jsMod_floor_eq {a b : α} (ha : 0 ≤ a / b) :
    jsMod a b = a - b * (⌊a / b⌋ : α) := by
  unfold jsMod jsTrunc
  rw [if_neg (not_lt.mpr ha)]

lemma sub_mul_floor_nonneg {b : α} (a : α) (hb : 0 < b) :
    0 ≤ a - b * (⌊a / b⌋ : α) := by
  have h := Int.fract_nonneg (a / b)
  have heq : a - b * (⌊a / b⌋ : α) = b * Int.fract (a / b) := by
    unfold Int.fract
    field_simp
  rw [heq]
  exact mul_nonneg hb.le h

lemma sub_mul_floor_lt {b : α} (a : α) (hb : 0 < b) :
    a - b * (⌊a / b⌋ : α) < b := by
  have h := Int.fract_lt_one (a / b)
  have heq : a - b * (⌊a / b⌋ : α) = b * Int.fract (a / b) := by
    unfold Int.fract
    field_simp
  rw [heq]
  calc b * Int.fract (a / b) < b * 1 := (mul_lt_mul_left hb).mpr h
    _ = b := mul_one b

/-- Bounds and congruence for the JS remainder with a positive modulus. -/
lemma jsMod_spec (a : α) {b : α} (hb : 0 < b) :
    -b < jsMod a b ∧ jsMod a b < b ∧ ∃ k : ℤ, jsMod a b = a - b * k := by
  by_cases h : a / b < 0
  · have hceil : jsMod a b = a - b * (⌈a / b⌉ : α) := by
      unfold jsMod jsTrunc
      rw [if_pos h]
    refine ⟨?_, ?_, ⟨⌈a / b⌉, hceil⟩⟩
    · have h1 : (⌈a / b⌉ : α) < a / b + 1 := by
        exact_mod_cast Int.ceil_lt_add_one (a / b)
      have h2 : b * (⌈a / b⌉ : α) < b * (a / b + 1) := (mul_lt_mul_left hb).mpr h1
      have h3 : b * (a / b + 1) = a + b := by field_simp
      rw [hceil]; nlinarith
    · have h1 : a / b ≤ (⌈a / b⌉ : α) := Int.le_ceil (a / b)
      have h2 : b * (a / b) ≤ b * (⌈a / b⌉ : α) := (mul_le_mul_left hb).mpr h1
      have h3 : b * (a / b) = a := by field_simp
      rw [hceil]; nlinarith
  · have hfl : jsMod a b = a - b * (⌊a / b⌋ : α) := jsMod_floor_eq (not_lt.mp h)
    refine ⟨?_, ?_, ⟨⌊a / b⌋, hfl⟩⟩
    · rw [hfl]; have := sub_mul_floor_nonneg a hb; linarith
    · rw [hfl]; exact sub_mul_floor_lt a hb

/-- `wrap360` lands in `[0, 360)` and differs from its input by a multiple of 360. -/
lemma wrap360_spec (x : α) :
    (0 ≤ wrap360 x ∧ wrap360 x < 360) ∧ ∃ k : ℤ, wrap360 x = x - 360 * k := by
  have h360 : (0 : α) < 360 := by norm_num
  obtain ⟨hlo, hhi, k, hk⟩ := jsMod_spec x h360
  unfold wrap360
  by_cases h : jsMod x 360 < 0
  · simp only [h, if_true]
    refine ⟨⟨by linarith, by linarith⟩, ⟨k - 1, ?_⟩⟩
    push_cast
    rw [hk]; ring
  · simp only [h, if_false]
    exact ⟨⟨not_lt.mp h, hhi⟩, ⟨k, hk⟩⟩

/-- `wrap180` lands in `[-180, 180)` and differs from its input by a multiple of 360. -/
lemma wrap180_spec (x : α) :
    (-180 ≤ wrap180 x ∧ wrap180 x < 180) ∧ ∃ k : ℤ, wrap180 x = x - 360 * k := by
  have h360 : (0 : α) < 360 := by norm_num
  obtain ⟨hlo, hhi, k₁, hk₁⟩ := jsMod_spec (x + 180) h360
  set u := jsMod (x + 180) 360 with hu
  have hupos : 0 ≤ (u + 360) / 360 := by
    apply div_nonneg _ h360.le
    linarith
  have hfl : jsMod (u + 360) 360 = (u + 360) - 360 * (⌊(u + 360) / 360⌋ : α) :=
    jsMod_floor_eq hupos
  have hge : 0 ≤ jsMod (u + 360) 360 := by
    rw [hfl]; exact sub_mul_floor_nonneg _ h360
  have hlt : jsMod (u + 360) 360 < 360 := by
    rw [hfl]; exact sub_mul_floor_lt _ h360
  unfold wrap180
  rw [← hu]
  refine ⟨⟨by linarith, by linarith⟩, ⟨k₁ + ⌊(u + 360) / 360⌋ - 1, ?_⟩⟩
  rw [hfl, hk₁]
  push_cast
  ring

omit [FloorRing α] in
/-- Two values in the same length-360 window that differ by a multiple of 360 coincide. -/
lemma mod360_unique {lo x y : α} (hx₁ : lo ≤ x) (hx₂ : x < lo + 360)
    (hy₁ : lo ≤ y) (hy₂ : y < lo + 360) {k : ℤ} (hk : x - y = 360 * k) : x = y := by
  have h1 : (k : α) < 1 := by nlinarith
  have h2 : (-1 : α) < (k : α) := by nlinarith
  have hk1 : k < 1 := by exact_mod_cast h1
  have hk2 : -1 < k := by exact_mod_cast h2
  have : k = 0 := by omega
  rw [this] at hk
  push_cast at hk
  linarith

end AngleLemmas

/-! ## Fade-tracker lemmas -/

lemma alookup_mem {k : String} {v : ℚ} :
    ∀ {m : List (String × ℚ)}, alookup k m = some v → (k, v) ∈ m
  | [], h => by simp [alookup] at h
  | (k', v') :: rest, h => by
    rw [alookup] at h
    by_cases hp : k' = k
    · rw [if_pos hp] at h
      injection h with hv
      subst hp
      subst hv
      exact List.mem_cons_self _ _
    · rw [if_neg hp] at h
      exact List.mem_cons_of_mem _ (alookup_mem h)

/-- If every pair `f` produces carries its input as its key, looking up a key
absent from the input list yields nothing. -/
lemma alookup_filterMap_not_mem {f : String → Option (String × ℚ)}
    (hf : ∀ k' p, f k' = some p → p.1 = k') {k : String} :
    ∀ {ks : List String}, k ∉ ks → alookup k (ks.filterMap f) = none
  | [], _ => rfl
  | k' :: rest, hk => by
    have hk1 : k' ≠ k := fun h => hk (h ▸ List.mem_cons_self k' rest)
    have hk2 : k ∉ rest := fun h => hk (List.mem_cons_of_mem _ h)
    rw [List.filterMap_cons]
    cases hfk : f k' with
    | none => exact alookup_filterMap_not_mem hf hk2
    | some p =>
      obtain ⟨pk, pv⟩ := p
      have hp1 : pk = k' := hf k' (pk, pv) hfk
      rw [alookup, if_neg (by rw [hp1]; exact hk1)]
      exact alookup_filterMap_not_mem hf hk2

/-- Looking a key up in the filter-mapped list evaluates `f` at that key. -/
lemma alookup_filterMap_mem {f : String → Option (String × ℚ)}
    (hf : ∀ k' p, f k' = some p → p.1 = k') {k : String} :
    ∀ {ks : List String}, ks.Nodup → k ∈ ks →
      alookup k (ks.filterMap f) = (f k).map Prod.snd
  | [], _, hk => absurd hk (List.not_mem_nil k)
  | k' :: rest, hnd, hk => by
    obtain ⟨hknotin, hndrest⟩ := List.nodup_cons.mp hnd
    rw [List.filterMap_cons]
    by_cases hkk : k = k'
    · subst hkk
      cases hfk : f k with
      | none =>
        rw [alookup_filterMap_not_mem hf hknotin]
        rfl
      | some p =>
        obtain ⟨pk, pv⟩ := p
        have hp1 : pk = k := hf k (pk, pv) hfk
        rw [alookup, if_pos hp1]
        rfl
    · have hkrest : k ∈ rest := by
        cases List.mem_cons.mp hk with
        | inl h => exact absurd h hkk
        | inr h => exact h
      cases hfk : f k' with
      | none => exact alookup_filterMap_mem hf hndrest hkrest
      | some p =>
        obtain ⟨pk, pv⟩ := p
        have hp1 : pk = k' := hf k' (pk, pv) hfk
        rw [alookup, if_neg (by rw [hp1]; exact fun h => hkk h.symm)]
        exact alookup_filterMap_mem hf hndrest hkrest

/-- `fadeStep` keeps the key it was given. -/
lemma fadeStep_key (target : List String) (dt : ℚ) (m : List (String × ℚ)) :
    ∀ k p, fadeStep target dt m k = some p → p.1 = k := by
  intro k p h
  rw [fadeStep] at h
  split at h
  · exact absurd h (by simp)
  · injection h with h'
    rw [← h']

/-- The per-key fade equation: after `updateAlpha`, every key of the union of
the stored map and the target set reads back `min 1 (cur + fadeIn*dt)` when
targeted and `max 0 (cur - fadeOut*dt)` otherwise (a deleted entry reads back
as 0, which equals its clamped value). -/
lemma updateAlpha_lookup (target : List String) (dt : ℚ)
    (m : List (String × ℚ)) {k : String}
    (hk : k ∈ m.map Prod.fst ++ target) :
    alphaGet (updateAlpha target dt m) k =
      if k ∈ target then min 1 (alphaGet m k + fadeInPerSec * dt)
      else max 0 (alphaGet m k - fadeOutPerSec * dt) := by
  have hk' : k ∈ (m.map Prod.fst ++ target).dedup := List.mem_dedup.mpr hk
  have hnd := List.nodup_dedup (m.map Prod.fst ++ target)
  rw [alphaGet, updateAlpha, alookup_filterMap_mem (fadeStep_key target dt m) hnd hk']
  rw [fadeStep]
  by_cases hv : k ∈ target
  · rw [if_pos hv]
    simp [fadeNext, hv]
  · rw [if_neg hv]
    by_cases hle : max 0 (alphaGet m k - fadeOutPerSec * dt) ≤ 0
    · have h0 : max 0 (alphaGet m k - fadeOutPerSec * dt) = 0 :=
        le_antisymm hle (le_max_left _ _)
      simp [fadeNext, hv, hle, h0]
    · simp [fadeNext, hv, hle]

/-- Every alpha stored after `updateAlpha` lies in `[0, 1]`, provided the
previous stored alphas did and `dt` is nonnegative. -/
lemma updateAlpha_bounds (target : List String) {dt : ℚ}
    (m : List (String × ℚ)) (hdt : 0 ≤ dt)
    (hm : ∀ q ∈ m, 0 ≤ q.2 ∧ q.2 ≤ 1) :
    ∀ q ∈ updateAlpha target dt m, 0 ≤ q.2 ∧ q.2 ≤ 1 := by
  intro q hq
  rw [updateAlpha] at hq
  obtain ⟨k, _, hfk⟩ := List.mem_filterMap.mp hq
  have hcur : 0 ≤ alphaGet m k ∧ alphaGet m k ≤ 1 := by
    rw [alphaGet]
    cases hl : alookup k m with
    | none => norm_num
    | some v =>
      have := hm (k, v) (alookup_mem hl)
      simpa using this
  obtain ⟨hc0, hc1⟩ := hcur
  have hin : (0 : ℚ) ≤ fadeInPerSec * dt :=
    mul_nonneg (by norm_num [fadeInPerSec]) hdt
  have hout : (0 : ℚ) ≤ fadeOutPerSec * dt :=
    mul_nonneg (by norm_num [fadeOutPerSec]) hdt
  rw [fadeStep] at hfk
  split at hfk
  · exact absurd hfk (by simp)
  · injection hfk with h'
    rw [← h']
    by_cases hv : k ∈ target
    · have : fadeNext (decide (k ∈ target)) (alphaGet m k) dt
          = min 1 (alphaGet m k + fadeInPerSec * dt) := by
        simp [fadeNext, hv]
      rw [this]
      exact ⟨le_min (by norm_num) (by linarith), min_le_left _ _⟩
    · have : fadeNext (decide (k ∈ target)) (alphaGet m k) dt
          = max 0 (alphaGet m k - fadeOutPerSec * dt) := by
        simp [fadeNext, hv]
      rw [this]
      exact ⟨le_max_left _ _, max_le (by norm_num) (by linarith)⟩

/-! ## Layout-engine lemmas -/

/-- Any `y` returned by the search loop overlaps nothing in `placed`, is
nonnegative, and (when the rectangle is not taller than the viewport) keeps
the rectangle fully below the top and above the bottom edge. -/
lemma findAux_sound (rect : Rect) (placed : List Rect) (height : ℚ) :
    ∀ (cs tried : List ℚ) (y : ℚ), findAux rect placed height cs tried = some y →
      (∀ q ∈ placed, rectsOverlap q ⟨rect.x, y, rect.w, rect.h⟩ = false) ∧
      0 ≤ y ∧ (rect.h ≤ height → y + rect.h ≤ height)
  | [], _, y => by
    intro h
    exact absurd h (by simp [findAux])
  | c :: cs, tried, y => by
    intro h
    rw [findAux] at h
    by_cases htried : max 0 (min (height - rect.h) c) ∈ tried
    · rw [if_pos htried] at h
      exact findAux_sound rect placed height cs tried y h
    · rw [if_neg htried] at h
      by_cases hov : placed.any
          (fun q => rectsOverlap q
            ⟨rect.x, max 0 (min (height - rect.h) c), rect.w, rect.h⟩) = true
      · rw [if_pos hov] at h
        exact findAux_sound rect placed height cs _ y h
      · rw [if_neg hov] at h
        injection h with hy
        subst hy
        have hfalse : placed.any
            (fun q => rectsOverlap q
              ⟨rect.x, max 0 (min (height - rect.h) c), rect.w, rect.h⟩) = false := by
          revert hov
          cases placed.any
            (fun q => rectsOverlap q
              ⟨rect.x, max 0 (min (height - rect.h) c), rect.w, rect.h⟩) <;> simp
        refine ⟨?_, le_max_left _ _, ?_⟩
        · intro q hq
          rw [List.any_eq_false] at hfalse
          have := hfalse q hq
          revert this
          cases rectsOverlap q
            ⟨rect.x, max 0 (min (height - rect.h) c), rect.w, rect.h⟩ <;> simp
        · intro hhle
          have h1 : max 0 (min (height - rect.h) c) ≤ height - rect.h :=
            max_le (by linarith) (min_le_left _ _)
          linarith

/-- Soundness of `findNonOverlappingY`. -/
lemma findNonOverlappingY_sound {rect : Rect} {placed : List Rect} {height : ℚ}
    {maxSteps : ℕ} {y : ℚ} (h : findNonOverlappingY rect placed height maxSteps = some y) :
    (∀ q ∈ placed, rectsOverlap q ⟨rect.x, y, rect.w, rect.h⟩ = false) ∧
    0 ≤ y ∧ (rect.h ≤ height → y + rect.h ≤ height) := by
  rw [findNonOverlappingY] at h
  exact findAux_sound rect placed height _ _ y h

lemma mem_addKey_self (k : String) (l : List String) : k ∈ addKey k l := by
  by_cases h : k ∈ l
  · simp [addKey, h]
  · simp [addKey, h]

lemma mem_addKey_of_mem {k' : String} (k : String) {l : List String}
    (h : k' ∈ l) : k' ∈ addKey k l := by
  rw [addKey]
  split
  · exact h
  · exact List.mem_append_left _ h

lemma append_singleton_ne {γ : Type} (l : List γ) (a : γ) : l ++ [a] ≠ l := by
  intro h
  have := congrArg List.length h
  simp at this

/-- Exhaustive description of the on-screen branch: either the search fails
and the state is untouched, or the found rectangle is appended to the
on-screen pool, the key is added, and the edge lanes are untouched. -/
lemma stepOnScreen_cases (height : ℚ) (alpha0 : List (String × ℚ))
    (st : FrameState) (key : String) (rect : Rect) (ms : ℕ) :
    (findNonOverlappingY rect st.placed height ms = none ∧
      stepOnScreen height alpha0 st key rect ms = st) ∨
    ∃ y, findNonOverlappingY rect st.placed height ms = some y ∧
      (stepOnScreen height alpha0 st key rect ms).placed
        = st.placed ++ [{ rect with y := y }] ∧
      (stepOnScreen height alpha0 st key rect ms).visibleKeys
        = addKey key st.visibleKeys ∧
      (stepOnScreen height alpha0 st key rect ms).edgeLeft = st.edgeLeft ∧
      (stepOnScreen height alpha0 st key rect ms).edgeRight = st.edgeRight := by
  cases hfind : findNonOverlappingY rect st.placed height ms with
  | none =>
    left
    refine ⟨rfl, ?_⟩
    simp [stepOnScreen, hfind]
  | some y =>
    right
    refine ⟨y, rfl, ?_, ?_, ?_, ?_⟩ <;>
      · simp only [stepOnScreen, hfind]
        split <;> rfl

/-- Draw instructions added by the on-screen branch are never chevrons. -/
lemma stepOnScreen_draws (height : ℚ) (alpha0 : List (String × ℚ))
    (st : FrameState) (key : String) (rect : Rect) (ms : ℕ) :
    ∀ d ∈ (stepOnScreen height alpha0 st key rect ms).draws,
      d ∈ st.draws ∨ d.isChevron = false := by
  intro d hd
  revert hd
  cases hfind : findNonOverlappingY rect st.placed height ms with
  | none =>
    simp only [stepOnScreen, hfind]
    exact fun hd => Or.inl hd
  | some y =>
    simp only [stepOnScreen, hfind]
    split
    · exact fun hd => Or.inl hd
    · intro hd
      rcases List.mem_append.mp hd with h | h
      · exact Or.inl h
      · right
        rcases List.mem_singleton.mp h with rfl
        rfl

/-- `placeEdge` never touches the on-screen pool or the visible-key set. -/
lemma placeEdge_placed_visible (height : ℚ) (st : FrameState) (key : String)
    (a : ℚ) (side : Side) (r : Rect) (ms : ℕ) :
    (placeEdge height st key a side r ms).placed = st.placed ∧
    (placeEdge height st key a side r ms).visibleKeys = st.visibleKeys := by
  cases side <;>
    · simp only [placeEdge]
      split <;> simp

/-- Exhaustive description of left-lane placement. -/
lemma placeEdge_left_cases (height : ℚ) (st : FrameState) (key : String)
    (a : ℚ) (r : Rect) (ms : ℕ) :
    (findNonOverlappingY r st.edgeLeft height ms = none ∧
      placeEdge height st key a .left r ms = st) ∨
    ∃ y, findNonOverlappingY r st.edgeLeft height ms = some y ∧
      (placeEdge height st key a .left r ms).edgeLeft
        = st.edgeLeft ++ [{ r with y := y }] ∧
      (placeEdge height st key a .left r ms).edgeRight = st.edgeRight := by
  cases hfind : findNonOverlappingY r st.edgeLeft height ms with
  | none =>
    left
    exact ⟨rfl, by simp [placeEdge, hfind]⟩
  | some y =>
    right
    exact ⟨y, rfl, by simp [placeEdge, hfind], by simp [placeEdge, hfind]⟩

/-- Exhaustive description of right-lane placement. -/
lemma placeEdge_right_cases (height : ℚ) (st : FrameState) (key : String)
    (a : ℚ) (r : Rect) (ms : ℕ) :
    (findNonOverlappingY r st.edgeRight height ms = none ∧
      placeEdge height st key a .right r ms = st) ∨
    ∃ y, findNonOverlappingY r st.edgeRight height ms = some y ∧
      (placeEdge height st key a .right r ms).edgeRight
        = st.edgeRight ++ [{ r with y := y }] ∧
      (placeEdge height st key a .right r ms).edgeLeft = st.edgeLeft := by
  cases hfind : findNonOverlappingY r st.edgeRight height ms with
  | none =>
    left
    exact ⟨rfl, by simp [placeEdge, hfind]⟩
  | some y =>
    right
    exact ⟨y, rfl, by simp [placeEdge, hfind], by simp [placeEdge, hfind]⟩

/-- With indicators disabled, the off-screen branch only records the key. -/
lemma stepOffScreen_flag_false {p : RenderParams} (horizonY : ℚ)
    (alpha0 : List (String × ℚ)) (st : FrameState) (key : String)
    (deltaAz w h : ℚ) (hflag : p.showOffscreenIndicators = false) :
    stepOffScreen p horizonY alpha0 st key deltaAz w h
      = { st with visibleKeys := addKey key st.visibleKeys } := by
  simp [stepOffScreen, hflag]

/-- The off-screen branch always records the key and never touches the
on-screen pool. -/
lemma stepOffScreen_visible_placed (p : RenderParams) (horizonY : ℚ)
    (alpha0 : List (String × ℚ)) (st : FrameState) (key : String)
    (deltaAz w h : ℚ) :
    (stepOffScreen p horizonY alpha0 st key deltaAz w h).visibleKeys
      = addKey key st.visibleKeys ∧
    (stepOffScreen p horizonY alpha0 st key deltaAz w h).placed = st.placed := by
  by_cases hflag : p.showOffscreenIndicators = false
  · rw [stepOffScreen_flag_false _ _ _ _ _ _ _ hflag]
    exact ⟨rfl, rfl⟩
  · simp only [stepOffScreen, if_neg hflag]
    split
    · exact ⟨rfl, rfl⟩
    · constructor
      · rw [(placeEdge_placed_visible _ _ _ _ _ _ _).2]
      · rw [(placeEdge_placed_visible _ _ _ _ _ _ _).1]

lemma NoOverlapPool_append {l : List Rect} {r : Rect} (hl : NoOverlapPool l)
    (hr : ∀ q ∈ l, rectsOverlap q r = false) : NoOverlapPool (l ++ [r]) := by
  rw [NoOverlapPool, List.pairwise_append]
  refine ⟨hl, List.pairwise_singleton _ _, ?_⟩
  intro a ha b hb
  rcases List.mem_singleton.mp hb with rfl
  exact hr a ha

lemma stepOnScreen_poolsOk (height : ℚ) (a0 : List (String × ℚ))
    (st : FrameState) (key : String) (rect : Rect) (ms : ℕ) (h : PoolsOk st) :
    PoolsOk (stepOnScreen height a0 st key rect ms) := by
  obtain ⟨h1, h2, h3⟩ := h
  rcases stepOnScreen_cases height a0 st key rect ms with ⟨_, heq⟩ |
    ⟨y, hfind, hp, _, hel, her⟩
  · rw [heq]; exact ⟨h1, h2, h3⟩
  · refine ⟨?_, ?_, ?_⟩
    · rw [hp]
      exact NoOverlapPool_append h1 (findNonOverlappingY_sound hfind).1
    · rw [hel]; exact h2
    · rw [her]; exact h3

lemma placeEdge_poolsOk (height : ℚ) (st : FrameState) (key : String) (a : ℚ)
    (side : Side) (r : Rect) (ms : ℕ) (h : PoolsOk st) :
    PoolsOk (placeEdge height st key a side r ms) := by
  obtain ⟨h1, h2, h3⟩ := h
  have hpv := placeEdge_placed_visible height st key a side r ms
  cases side
  · rcases placeEdge_left_cases height st key a r ms with ⟨_, heq⟩ |
      ⟨y, hfind, hel, her⟩
    · rw [heq]; exact ⟨h1, h2, h3⟩
    · refine ⟨?_, ?_, ?_⟩
      · rw [hpv.1]; exact h1
      · rw [hel]
        exact NoOverlapPool_append h2 (findNonOverlappingY_sound hfind).1
      · rw [her]; exact h3
  · rcases placeEdge_right_cases height st key a r ms with ⟨_, heq⟩ |
      ⟨y, hfind, her, hel⟩
    · rw [heq]; exact ⟨h1, h2, h3⟩
    · refine ⟨?_, ?_, ?_⟩
      · rw [hpv.1]; exact h1
      · rw [hel]; exact h2
      · rw [her]
        exact NoOverlapPool_append h3 (findNonOverlappingY_sound hfind).1

lemma stepOffScreen_poolsOk (p : RenderParams) (hY : ℚ)
    (a0 : List (String × ℚ)) (st : FrameState) (key : String)
    (dAz w hh : ℚ) (h : PoolsOk st) :
    PoolsOk (stepOffScreen p hY a0 st key dAz w hh) := by
  by_cases hflag : p.showOffscreenIndicators = false
  · rw [stepOffScreen_flag_false _ _ _ _ _ _ _ hflag]
    exact h
  · simp only [stepOffScreen, if_neg hflag]
    split
    · exact h
    · exact placeEdge_poolsOk _ _ _ _ _ _ _ h

lemma stepCandidate_poolsOk (p : RenderParams) (hY : ℚ)
    (a0 : List (String × ℚ)) (st : FrameState) (it : Candidate)
    (h : PoolsOk st) : PoolsOk (stepCandidate p hY a0 st it) := by
  rw [stepCandidate]
  split
  · exact stepOnScreen_poolsOk _ _ _ _ _ _ h
  · exact stepOffScreen_poolsOk _ _ _ _ _ _ _ _ h

lemma foldl_poolsOk (p : RenderParams) (hY : ℚ) (a0 : List (String × ℚ)) :
    ∀ (cands : List Candidate) (st : FrameState), PoolsOk st →
      PoolsOk (cands.foldl (stepCandidate p hY a0) st)
  | [], _, h => h
  | c :: cs, st, h =>
    foldl_poolsOk p hY a0 cs _ (stepCandidate_poolsOk p hY a0 st c h)

lemma stepOnScreen_inView {width height : ℚ} (a0 : List (String × ℚ))
    (st : FrameState) (key : String) {rect : Rect} (ms : ℕ)
    (hx0 : 0 ≤ rect.x) (hxw : rect.x + rect.w ≤ width) (hhh : rect.h ≤ height)
    (h : PoolsInView width height st) :
    PoolsInView width height (stepOnScreen height a0 st key rect ms) := by
  obtain ⟨h1, h2, h3⟩ := h
  rcases stepOnScreen_cases height a0 st key rect ms with ⟨_, heq⟩ |
    ⟨y, hfind, hp, _, hel, her⟩
  · rw [heq]; exact ⟨h1, h2, h3⟩
  · refine ⟨?_, ?_, ?_⟩
    · rw [hp]
      intro r hr
      rcases List.mem_append.mp hr with h' | h'
      · exact h1 r h'
      · rcases List.mem_singleton.mp h' with rfl
        obtain ⟨_, hy0, hyh⟩ := findNonOverlappingY_sound hfind
        exact ⟨hx0, hxw, hy0, hyh hhh⟩
    · rw [hel]; exact h2
    · rw [her]; exact h3

lemma placeEdge_inView {width height : ℚ} (st : FrameState) (key : String)
    (a : ℚ) (side : Side) {r : Rect} (ms : ℕ)
    (hx0 : 0 ≤ r.x) (hxw : r.x + r.w ≤ width) (hhh : r.h ≤ height)
    (h : PoolsInView width height st) :
    PoolsInView width height (placeEdge height st key a side r ms) := by
  obtain ⟨h1, h2, h3⟩ := h
  have hpv := placeEdge_placed_visible height st key a side r ms
  cases side
  · rcases placeEdge_left_cases height st key a r ms with ⟨_, heq⟩ |
      ⟨y, hfind, hel, her⟩
    · rw [heq]; exact ⟨h1, h2, h3⟩
    · refine ⟨by rw [hpv.1]; exact h1, ?_, by rw [her]; exact h3⟩
      rw [hel]
      intro q hq
      rcases List.mem_append.mp hq with h' | h'
      · exact h2 q h'
      · rcases List.mem_singleton.mp h' with rfl
        obtain ⟨_, hy0, hyh⟩ := findNonOverlappingY_sound hfind
        exact ⟨hx0, hxw, hy0, hyh hhh⟩
  · rcases placeEdge_right_cases height st key a r ms with ⟨_, heq⟩ |
      ⟨y, hfind, her, hel⟩
    · rw [heq]; exact ⟨h1, h2, h3⟩
    · refine ⟨by rw [hpv.1]; exact h1, by rw [hel]; exact h2, ?_⟩
      rw [her]
      intro q hq
      rcases List.mem_append.mp hq with h' | h'
      · exact h3 q h'
      · rcases List.mem_singleton.mp h' with rfl
        obtain ⟨_, hy0, hyh⟩ := findNonOverlappingY_sound hfind
        exact ⟨hx0, hxw, hy0, hyh hhh⟩

lemma stepOffScreen_inView {p : RenderParams} (hY : ℚ)
    (a0 : List (String × ℚ)) (st : FrameState) (key : String) (dAz : ℚ)
    {w h : ℚ} (hw : w + 8 ≤ p.width) (hh24 : h ≤ p.height)
    (hPool : PoolsInView p.width p.height st) :
    PoolsInView p.width p.height (stepOffScreen p hY a0 st key dAz w h) := by
  by_cases hflag : p.showOffscreenIndicators = false
  · rw [stepOffScreen_flag_false _ _ _ _ _ _ _ hflag]
    exact hPool
  · simp only [stepOffScreen, if_neg hflag]
    split
    · exact hPool
    · cases hside : edgeSide dAz
      · simp only [edgeRectFor]
        exact placeEdge_inView _ _ _ _ _ (by norm_num) (by linarith)
          (by linarith) hPool
      · simp only [edgeRectFor]
        exact placeEdge_inView _ _ _ _ _ (by linarith) (by linarith)
          (by linarith) hPool

lemma stepOnScreen_visible_superset (height : ℚ) (a0 : List (String × ℚ))
    (st : FrameState) (key : String) (rect : Rect) (ms : ℕ) :
    ∀ k ∈ st.visibleKeys, k ∈ (stepOnScreen height a0 st key rect ms).visibleKeys := by
  intro k hk
  rcases stepOnScreen_cases height a0 st key rect ms with ⟨_, heq⟩ |
    ⟨y, _, _, hv, _, _⟩
  · rw [heq]; exact hk
  · rw [hv]; exact mem_addKey_of_mem _ hk

lemma stepCandidate_visible_superset (p : RenderParams) (hY : ℚ)
    (a0 : List (String × ℚ)) (st : FrameState) (it : Candidate) :
    ∀ k ∈ st.visibleKeys, k ∈ (stepCandidate p hY a0 st it).visibleKeys := by
  intro k hk
  rw [stepCandidate]
  split
  · exact stepOnScreen_visible_superset _ _ _ _ _ _ k hk
  · rw [(stepOffScreen_visible_placed _ _ _ _ _ _ _ _).1]
    exact mem_addKey_of_mem _ hk

lemma stepCandidate_offscreen_adds (p : RenderParams) (hY : ℚ)
    (a0 : List (String × ℚ)) (st : FrameState) (it : Candidate)
    (hoff : isWithinFov (wrap180 (it.bearing - p.headingDeg)) p.hfovDeg = false) :
    keyOfCand it ∈ (stepCandidate p hY a0 st it).visibleKeys := by
  rw [stepCandidate, if_neg (by simp [hoff])]
  rw [(stepOffScreen_visible_placed _ _ _ _ _ _ _ _).1]
  exact mem_addKey_self _ _

lemma foldl_visible_superset (p : RenderParams) (hY : ℚ)
    (a0 : List (String × ℚ)) :
    ∀ (cands : List Candidate) (st : FrameState) (k : String),
      k ∈ st.visibleKeys →
      k ∈ (cands.foldl (stepCandidate p hY a0) st).visibleKeys
  | [], _, _, hk => hk
  | c :: cs, st, k, hk =>
    foldl_visible_superset p hY a0 cs _ k
      (stepCandidate_visible_superset p hY a0 st c k hk)

lemma foldl_offscreen_mem (p : RenderParams) (hY : ℚ)
    (a0 : List (String × ℚ)) :
    ∀ (cands : List Candidate) (st : FrameState) (c : Candidate), c ∈ cands →
      isWithinFov (wrap180 (c.bearing - p.headingDeg)) p.hfovDeg = false →
      keyOfCand c ∈ (cands.foldl (stepCandidate p hY a0) st).visibleKeys
  | [], _, c, hc, _ => absurd hc (List.not_mem_nil c)
  | d :: rest, st, c, hc, hoff => by
    rcases List.mem_cons.mp hc with rfl | hmem
    · exact foldl_visible_superset p hY a0 rest _ _
        (stepCandidate_offscreen_adds p hY a0 st c hoff)
    · exact foldl_offscreen_mem p hY a0 rest _ c hmem hoff

lemma labelRect_bounds (p : RenderParams) (hY dAz w h : ℚ)
    (hw : w + 8 ≤ p.width) :
    0 ≤ (labelRect p hY dAz w h).x ∧
    (labelRect p hY dAz w h).x + (labelRect p hY dAz w h).w ≤ p.width ∧
    (labelRect p hY dAz w h).h = h := by
  simp only [labelRect]
  refine ⟨le_trans (by norm_num) (le_max_left _ _), ?_, trivial⟩
  have h4 : (4 : ℚ) ≤ p.width - w - 4 := by linarith
  have hmax : max 4 (min (p.width - w - 4)
      (azimuthToScreenX dAz p.hfovDeg p.width - w / 2)) ≤ p.width - w - 4 :=
    max_le h4 (min_le_left _ _)
  linarith

lemma stepCandidate_inView (p : RenderParams) (hY : ℚ)
    (a0 : List (String × ℚ)) (st : FrameState) (it : Candidate)
    (hwc : it.textW + 20 ≤ p.width) (hh : 24 ≤ p.height)
    (h : PoolsInView p.width p.height st) :
    PoolsInView p.width p.height (stepCandidate p hY a0 st it) := by
  rw [stepCandidate]
  split
  · obtain ⟨hx0, hxw, hhr⟩ := labelRect_bounds p hY
      (wrap180 (it.bearing - p.headingDeg)) (it.textW + 12) 24 (by linarith)
    exact stepOnScreen_inView _ _ _ _ hx0 hxw (by rw [hhr]; exact hh) h
  · exact stepOffScreen_inView _ _ _ _ _ (by linarith) hh h

lemma foldl_inView (p : RenderParams) (hY : ℚ) (a0 : List (String × ℚ))
    (hh : 24 ≤ p.height) :
    ∀ (cands : List Candidate) (st : FrameState),
      (∀ c ∈ cands, c.textW + 20 ≤ p.width) →
      PoolsInView p.width p.height st →
      PoolsInView p.width p.height (cands.foldl (stepCandidate p hY a0) st)
  | [], _, _, h => h
  | c :: cs, st, hcs, h =>
    foldl_inView p hY a0 hh cs _
      (fun d hd => hcs d (List.mem_cons_of_mem _ hd))
      (stepCandidate_inView p hY a0 st c
        (hcs c (List.mem_cons_self _ _)) hh h)

/-- The on-screen branch never touches the edge lanes. -/
lemma stepOnScreen_edges (height : ℚ) (a0 : List (String × ℚ))
    (st : FrameState) (key : String) (rect : Rect) (ms : ℕ) :
    (stepOnScreen height a0 st key rect ms).edgeLeft = st.edgeLeft ∧
    (stepOnScreen height a0 st key rect ms).edgeRight = st.edgeRight := by
  rcases stepOnScreen_cases height a0 st key rect ms with ⟨_, heq⟩ |
    ⟨y, _, _, _, hel, her⟩
  · rw [heq]; exact ⟨rfl, rfl⟩
  · exact ⟨hel, her⟩

/-- The key lands in the on-screen branch's visible set exactly when it was
already there or a rectangle was actually placed. -/
lemma stepOnScreen_visible_iff (height : ℚ) (a0 : List (String × ℚ))
    (st : FrameState) (key : String) (rect : Rect) (ms : ℕ) :
    key ∈ (stepOnScreen height a0 st key rect ms).visibleKeys ↔
      key ∈ st.visibleKeys ∨
      (stepOnScreen height a0 st key rect ms).placed ≠ st.placed := by
  rcases stepOnScreen_cases height a0 st key rect ms with ⟨_, heq⟩ |
    ⟨y, _, hp, hv, _, _⟩
  · rw [heq]
    simp
  · rw [hp, hv]
    constructor
    · intro _
      right
      exact append_singleton_ne _ _
    · intro _
      exact mem_addKey_self _ _

/-- With indicators disabled, one loop iteration leaves the edge lanes alone
and adds no chevron draw. -/
lemma stepCandidate_flag_false (p : RenderParams) (hY : ℚ)
    (a0 : List (String × ℚ)) (st : FrameState) (it : Candidate)
    (hflag : p.showOffscreenIndicators = false) :
    (stepCandidate p hY a0 st it).edgeLeft = st.edgeLeft ∧
    (stepCandidate p hY a0 st it).edgeRight = st.edgeRight ∧
    (∀ d ∈ (stepCandidate p hY a0 st it).draws,
      d ∈ st.draws ∨ d.isChevron = false) := by
  rw [stepCandidate]
  split
  · exact ⟨(stepOnScreen_edges _ _ _ _ _ _).1, (stepOnScreen_edges _ _ _ _ _ _).2,
      stepOnScreen_draws _ _ _ _ _ _⟩
  · rw [stepOffScreen_flag_false _ _ _ _ _ _ _ hflag]
    exact ⟨rfl, rfl, fun d hd => Or.inl hd⟩

lemma foldl_flag_false (p : RenderParams) (hY : ℚ) (a0 : List (String × ℚ))
    (hflag : p.showOffscreenIndicators = false) :
    ∀ (cands : List Candidate) (st : FrameState),
      st.edgeLeft = [] → st.edgeRight = [] →
      (∀ d ∈ st.draws, d.isChevron = false) →
      (cands.foldl (stepCandidate p hY a0) st).edgeLeft = [] ∧
      (cands.foldl (stepCandidate p hY a0) st).edgeRight = [] ∧
      (∀ d ∈ (cands.foldl (stepCandidate p hY a0) st).draws,
        d.isChevron = false)
  | [], _, h1, h2, h3 => ⟨h1, h2, h3⟩
  | c :: cs, st, h1, h2, h3 => by
    obtain ⟨e1, e2, e3⟩ := stepCandidate_flag_false p hY a0 st c hflag
    refine foldl_flag_false p hY a0 hflag cs _ (e1.trans h1) (e2.trans h2) ?_
    intro d hd
    rcases e3 d hd with hin | hch
    · exact h3 d hin
    · exact hch

lemma mem_insertByPop (a c : Candidate) :
    ∀ (l : List Candidate), a ∈ insertByPop c l ↔ a = c ∨ a ∈ l
  | [] => by simp [insertByPop]
  | d :: ds => by
    rw [insertByPop]
    split
    · simp [List.mem_cons]
    · rw [List.mem_cons, mem_insertByPop a c ds, List.mem_cons]
      tauto

lemma mem_sortByPopDesc (a : Candidate) :
    ∀ (l : List Candidate), a ∈ sortByPopDesc l ↔ a ∈ l
  | [] => Iff.rfl
  | c :: cs => by
    rw [sortByPopDesc, mem_insertByPop a c (sortByPopDesc cs),
      mem_sortByPopDesc a cs, List.mem_cons]

/-! ## Fusion-engine lemmas -/

/-- An event that is neither a motion event nor a heading-carrying orientation
event leaves the fallback-decision state (`lastGyroTs`, `headingMeas`,
`fusionActive`) untouched. -/
lemma stepEngine_quiet (s : EngineState) (e : SensorEvent)
    (h1 : s.lastGyroTs = 0) (h2 : s.headingMeas = none)
    (h3 : s.fusionActive = true)
    (hm : isMotionEvent e = false) (hh : carriesHeading e = false) :
    (stepEngine s e).lastGyroTs = 0 ∧ (stepEngine s e).headingMeas = none ∧
    (stepEngine s e).fusionActive = true := by
  cases e with
  | genericReading z y x =>
    simp only [stepEngine]
    split
    · exact ⟨h1, h2, h3⟩
    · exact ⟨h1, h2, h3⟩
  | orientation wch alpha =>
    cases wch with
    | some hdg => simp [carriesHeading] at hh
    | none =>
      cases alpha with
      | some a => simp [carriesHeading] at hh
      | none =>
        simp only [stepEngine]
        split
        · exact ⟨h1, h2, h3⟩
        · exact ⟨h1, h2, h3⟩
  | motion now rot tilt => simp [isMotionEvent] at hm
  | timeoutFire =>
    simp only [stepEngine]
    split
    · exact ⟨h1, h2, h3⟩
    · exact ⟨h1, h2, h3⟩
  | pointerDown x y =>
    simp only [stepEngine]
    split
    · exact ⟨h1, h2, h3⟩
    · exact ⟨h1, h2, h3⟩
  | pointerUp =>
    simp only [stepEngine]
    split
    · exact ⟨h1, h2, h3⟩
    · exact ⟨h1, h2, h3⟩
  | pointerMove x y =>
    simp only [stepEngine]
    split
    · exact ⟨h1, h2, h3⟩
    · exact ⟨h1, h2, h3⟩

lemma runEngine_quiet :
    ∀ (events : List SensorEvent) (s : EngineState),
      s.lastGyroTs = 0 → s.headingMeas = none → s.fusionActive = true →
      (∀ e ∈ events, isMotionEvent e = false ∧ carriesHeading e = false) →
      (runEngine s events).lastGyroTs = 0 ∧
      (runEngine s events).headingMeas = none ∧
      (runEngine s events).fusionActive = true
  | [], _, h1, h2, h3, _ => ⟨h1, h2, h3⟩
  | e :: es, s, h1, h2, h3, hq => by
    obtain ⟨p1, p2, p3⟩ := stepEngine_quiet s e h1 h2 h3
      (hq e (List.mem_cons_self _ _)).1 (hq e (List.mem_cons_self _ _)).2
    exact runEngine_quiet es _ p1 p2 p3
      (fun e' he' => hq e' (List.mem_cons_of_mem _ he'))

/-! ## Claim theorems: projector and smoothing -/

attribute [local semireducible] Rat.add Rat.sub Rat.mul Rat.inv

/-- C6 counterexample: the claim puts `wrap180` results in `(-180, 180]`, but
`wrap180(180) = -180`, which is not strictly greater than `-180`. -/
theorem wrap180_at_180_not_gt_neg180 : ¬ (-180 < wrap180 (180 : ℚ)) := by decide

/-- C6 (amended): for every input angle, `wrap180` returns a value in
`[-180, 180)`: at least `-180` and strictly less than `180`. -/
theorem wrap180_range (x : ℚ) : -180 ≤ wrap180 x ∧ wrap180 x < 180 :=
  (wrap180_spec x).1

/-- C5: evaluating `azimuthToScreenX` at the failing input `deltaAz = -hfov/2`
(`-30` with `hfov = 60`, `width = 400`). The claim — and the code's own comment
"Map -hfov/2..+hfov/2 to 0..width" — require `0`; the code divides the delta by
`hfovDeg` instead of `hfovDeg / 2`, so `[-hfov, +hfov]` spans `[0, width]` and
`-hfov/2` lands at `width/4 = 100`. The screen centre (`deltaAz = 0`) is the
only claimed anchor the code satisfies. -/
theorem azimuthToScreenX_spans_double_fov :
    azimuthToScreenX (-30) 60 400 = 100 ∧
    azimuthToScreenX (-30) 60 400 ≠ 0 ∧
    azimuthToScreenX 0 60 400 = 200 ∧
    azimuthToScreenX 30 60 400 = 300 ∧
    azimuthToScreenX 30 60 400 ≠ 400 := by
  refine ⟨?_, ?_, ?_, ?_, ?_⟩ <;> norm_num [azimuthToScreenX]

/-- C7 counterexample: increasing the pitch from 0° to 10° moves the horizon
from `y = 200` to `y = 150` (with `vfov = 40`, `height = 400`) — i.e. to a
*smaller* `y`, up the screen, refuting the claim that positive pitch moves the
horizon toward larger `y`. -/
theorem pitchToScreenY_decreases_with_pitch :
    pitchToScreenY 10 40 400 < pitchToScreenY 0 40 400 := by
  norm_num [pitchToScreenY]

/-- C7 (amended): `pitchToScreenY` is the clamp to `[0, height]` of a linear
map of pitch in which increasing (positive) pitch moves the horizon toward
*smaller* `y`, i.e. up the screen: it is antitone in the pitch argument
(for a positive vertical field of view), and its value always lies in
`[0, height]` (for a nonnegative height). -/
theorem pitchToScreenY_antitone_and_clamped (p₁ p₂ v h : ℚ)
    (hv : 0 < v) (hh : 0 ≤ h) (hp : p₁ ≤ p₂) :
    pitchToScreenY p₂ v h ≤ pitchToScreenY p₁ v h ∧
    0 ≤ pitchToScreenY p₁ v h ∧ pitchToScreenY p₁ v h ≤ h := by
  unfold pitchToScreenY
  refine ⟨?_, le_max_left _ _, max_le hh (min_le_left _ _)⟩
  have h1 : -p₂ / v ≤ -p₁ / v := (div_le_div_iff_of_pos_right hv).mpr (by linarith)
  have h2 : (0 : ℚ) ≤ h / 2 := by linarith
  have h3 : -p₂ / v * (h / 2) + h / 2 ≤ -p₁ / v * (h / 2) + h / 2 := by
    have := mul_le_mul_of_nonneg_right h1 h2
    linarith
  exact max_le_max le_rfl (min_le_min le_rfl h3)

theorem pitchToScreenY_antitone_witness :
    pitchToScreenY 10 40 400 ≤ pitchToScreenY 0 40 400 ∧
    0 ≤ pitchToScreenY 0 40 400 ∧ pitchToScreenY 0 40 400 ≤ 400 :=
  pitchToScreenY_antitone_and_clamped 0 10 40 400 (by norm_num) (by norm_num)
    (by norm_num)

/-- C2: for every previous smoothed heading and raw target heading (and any
nonnegative smoothing factor, as guaranteed by `setSmoothing`'s clamp to
`[0, 0.3]`), the emitted smoothed heading lies in `[0, 360)`, and its circular
displacement from the previous heading is `c` times the shortest-path (raw
circular) delta `wrap180(next - prev)` for some `c ∈ [0, 1)` — so the movement
is along the shortest circular path and its magnitude never exceeds the raw
delta's. In particular, from 2° toward 358° the raw delta is `wrap180(356) =
-4`, so the movement goes via the −4° path, never via +356°. -/
theorem smoothAngle_shortest_path (prev next factor : ℝ) (hf : 0 ≤ factor) :
    (0 ≤ smoothAngle prev next factor ∧ smoothAngle prev next factor < 360) ∧
    ∃ c : ℝ, 0 ≤ c ∧ c < 1 ∧
      wrap180 (smoothAngle prev next factor - prev) = c * wrap180 (next - prev) ∧
      |c * wrap180 (next - prev)| ≤ |wrap180 (next - prev)| := by
  have hexp_pos : 0 < Real.exp (-factor) := Real.exp_pos _
  have hexp_le : Real.exp (-factor) ≤ 1 := by
    calc Real.exp (-factor) ≤ Real.exp 0 := Real.exp_le_exp.mpr (by linarith)
      _ = 1 := Real.exp_zero
  set f := 1 - Real.exp (-factor) with hfdef
  have hf0 : 0 ≤ f := by rw [hfdef]; linarith
  have hf1 : f < 1 := by rw [hfdef]; linarith
  set δ := wrap180 (next - prev) with hδ
  obtain ⟨⟨hδlo, hδhi⟩, _⟩ := wrap180_spec (next - prev)
  rw [← hδ] at hδlo hδhi
  have hprod_lo : -180 < δ * f := by
    nlinarith [mul_nonneg (by linarith : (0:ℝ) ≤ δ + 180) hf0]
  have hprod_hi : δ * f < 180 := by
    nlinarith [mul_nonneg (by linarith : (0:ℝ) ≤ 180 - δ) hf0]
  have hs : smoothAngle prev next factor = wrap360 (prev + δ * f) := by
    rw [smoothAngle, ← hδ, ← hfdef]
  obtain ⟨⟨hrlo, hrhi⟩, k, hk⟩ := wrap360_spec (prev + δ * f)
  obtain ⟨⟨hwlo, hwhi⟩, k₃, hk₃⟩ :=
    wrap180_spec (smoothAngle prev next factor - prev)
  refine ⟨⟨by rw [hs]; exact hrlo, by rw [hs]; exact hrhi⟩,
    ⟨f, hf0, hf1, ?_, ?_⟩⟩
  · have hdiff : wrap180 (smoothAngle prev next factor - prev) - δ * f
        = 360 * ((-(k + k₃) : ℤ) : ℝ) := by
      rw [hk₃, hs, hk]
      push_cast
      ring
    have := mod360_unique hwlo (by linarith) (by linarith)
      (by linarith) hdiff
    rw [this]
    ring
  · rw [abs_mul, abs_of_nonneg hf0]
    calc f * |δ| ≤ 1 * |δ| :=
          mul_le_mul_of_nonneg_right hf1.le (abs_nonneg δ)
      _ = |δ| := one_mul _

/-- C3: on each fade-tracker update with nonnegative `dt` (the renderer clamps
`dt` to `[0, 0.1]` for monotone clocks) and stored alphas in `[0, 1]`, every
key present in either the tracker or the target set reads back
`min(1, alpha + fadeInPerSec*dt)` when targeted and
`max(0, alpha - fadeOutPerSec*dt)` otherwise (a deleted entry reads back as 0,
which *is* its clamped value); every stored alpha stays in `[0, 1]`; and the
rates are deliberately asymmetric — `fadeInPerSec = 4`, `fadeOutPerSec = 3` —
so for any positive `dt` the fade-in movement `4·dt` exceeds the fade-out
movement `3·dt`. -/
theorem updateAlpha_per_key_spec (target : List String) (dt : ℚ)
    (m : List (String × ℚ)) (hdt : 0 ≤ dt)
    (hm : ∀ q ∈ m, 0 ≤ q.2 ∧ q.2 ≤ 1) :
    (∀ k ∈ m.map Prod.fst ++ target,
      alphaGet (updateAlpha target dt m) k =
        if k ∈ target then min 1 (alphaGet m k + fadeInPerSec * dt)
        else max 0 (alphaGet m k - fadeOutPerSec * dt)) ∧
    (∀ q ∈ updateAlpha target dt m, 0 ≤ q.2 ∧ q.2 ≤ 1) ∧
    fadeInPerSec = 4 ∧ fadeOutPerSec = 3 ∧
    (∀ d : ℚ, 0 < d → fadeOutPerSec * d < fadeInPerSec * d) :=
  ⟨fun _ hk => updateAlpha_lookup target dt m hk,
   updateAlpha_bounds target m hdt hm,
   rfl, rfl,
   fun d hd => by rw [fadeInPerSec, fadeOutPerSec]; linarith⟩

theorem updateAlpha_per_key_spec_witness :
    (∀ k ∈ ([("b", 1 / 2)] : List (String × ℚ)).map Prod.fst ++ ["a"],
      alphaGet (updateAlpha ["a"] (1 / 100) [("b", 1 / 2)]) k =
        if k ∈ ["a"] then min 1 (alphaGet [("b", 1 / 2)] k + fadeInPerSec * (1 / 100))
        else max 0 (alphaGet [("b", 1 / 2)] k - fadeOutPerSec * (1 / 100))) ∧
    (∀ q ∈ updateAlpha ["a"] (1 / 100) [("b", 1 / 2)], 0 ≤ q.2 ∧ q.2 ≤ 1) ∧
    fadeInPerSec = 4 ∧ fadeOutPerSec = 3 ∧
    (∀ d : ℚ, 0 < d → fadeOutPerSec * d < fadeInPerSec * d) :=
  updateAlpha_per_key_spec ["a"] (1 / 100) [("b", 1 / 2)] (by norm_num)
    (by decide)

/-- C4: within a frame no two rectangles of the same pool overlap — the
on-screen pool and the two edge lanes are each pairwise collision-free, for
every input — and every slot returned by the vertical search is
non-overlapping against every rectangle previously placed in its pool. -/
theorem renderFrame_pools_disjoint (p : RenderParams) (cities : List Candidate)
    (alpha0 : List (String × ℚ)) (dt : ℚ) :
    (NoOverlapPool (renderFrame p cities alpha0 dt).1.placed ∧
     NoOverlapPool (renderFrame p cities alpha0 dt).1.edgeLeft ∧
     NoOverlapPool (renderFrame p cities alpha0 dt).1.edgeRight) ∧
    (∀ (rect : Rect) (placed : List Rect) (height : ℚ) (ms : ℕ) (y : ℚ),
      findNonOverlappingY rect placed height ms = some y →
      ∀ q ∈ placed, rectsOverlap q ⟨rect.x, y, rect.w, rect.h⟩ = false) := by
  constructor
  · exact foldl_poolsOk p _ alpha0 _ initFrameState
      ⟨List.Pairwise.nil, List.Pairwise.nil, List.Pairwise.nil⟩
  · intro rect placed height ms y h
    exact (findNonOverlappingY_sound h).1

theorem renderFrame_pools_disjoint_witness :
    (NoOverlapPool (renderFrame ⟨200, 100, 60, 0, 0, 1000, true⟩
        [⟨"A", "X", 5, 1, 0, 50⟩] [] 0).1.placed ∧
     NoOverlapPool (renderFrame ⟨200, 100, 60, 0, 0, 1000, true⟩
        [⟨"A", "X", 5, 1, 0, 50⟩] [] 0).1.edgeLeft ∧
     NoOverlapPool (renderFrame ⟨200, 100, 60, 0, 0, 1000, true⟩
        [⟨"A", "X", 5, 1, 0, 50⟩] [] 0).1.edgeRight) ∧
    (∀ q ∈ ([] : List Rect), rectsOverlap q ⟨0, 0, 10, 24⟩ = false) :=
  ⟨(renderFrame_pools_disjoint ⟨200, 100, 60, 0, 0, 1000, true⟩
      [⟨"A", "X", 5, 1, 0, 50⟩] [] 0).1,
   (renderFrame_pools_disjoint ⟨200, 100, 60, 0, 0, 1000, true⟩
      [⟨"A", "X", 5, 1, 0, 50⟩] [] 0).2 ⟨0, 0, 10, 24⟩ [] 100 3 0 (by decide)⟩

/-- C8 counterexample: with viewport width 10 and a label of measured text
width 100 (so rectangle width 112), the placed on-screen rectangle sticks out
of the viewport: its `x + w` exceeds the width, refuting the unconditional
in-viewport claim. -/
theorem renderFrame_viewport_cex :
    ∃ r ∈ (renderFrame ⟨10, 100, 60, 0, 0, 1000, false⟩
      [⟨"A", "X", 5, 1, 0, 100⟩] [] 0).1.placed,
      ¬(r.x + r.w ≤ 10) := by decide

/-- C8 (amended): every placement rectangle of a layout frame (on-screen pool
and both edge lanes) lies entirely within the `[0,width] × [0,height]`
viewport, *provided* every candidate's label fits: `textW + 20 ≤ width`
(rectangle width `textW + 12` plus the 4-pixel clamping margins on both sides
or the 6-pixel edge margins) and the fixed 24-pixel label height fits the
viewport (`24 ≤ height`). Without these provisos the claim is false (see the
counterexample): the code clamps `x` to at least 4 and `y` into
`[0, height - h]`, so an oversized label overflows on the right/bottom. -/
theorem renderFrame_rects_in_viewport (p : RenderParams)
    (cities : List Candidate) (alpha0 : List (String × ℚ)) (dt : ℚ)
    (hw : ∀ c ∈ cities, c.textW + 20 ≤ p.width) (hh : 24 ≤ p.height) :
    (∀ r ∈ (renderFrame p cities alpha0 dt).1.placed, InView p.width p.height r) ∧
    (∀ r ∈ (renderFrame p cities alpha0 dt).1.edgeLeft, InView p.width p.height r) ∧
    (∀ r ∈ (renderFrame p cities alpha0 dt).1.edgeRight, InView p.width p.height r) := by
  refine foldl_inView p _ alpha0 hh _ initFrameState ?_
    ⟨fun r hr => absurd hr (List.not_mem_nil r),
     fun r hr => absurd hr (List.not_mem_nil r),
     fun r hr => absurd hr (List.not_mem_nil r)⟩
  intro c hc
  exact hw c (List.mem_of_mem_filter ((mem_sortByPopDesc c _).mp hc))

theorem renderFrame_rects_in_viewport_witness :
    (∀ r ∈ (renderFrame ⟨200, 100, 60, 0, 0, 1000, false⟩
      [⟨"A", "X", 5, 1, 0, 50⟩] [] 0).1.placed, InView 200 100 r) ∧
    (∀ r ∈ (renderFrame ⟨200, 100, 60, 0, 0, 1000, false⟩
      [⟨"A", "X", 5, 1, 0, 50⟩] [] 0).1.edgeLeft, InView 200 100 r) ∧
    (∀ r ∈ (renderFrame ⟨200, 100, 60, 0, 0, 1000, false⟩
      [⟨"A", "X", 5, 1, 0, 50⟩] [] 0).1.edgeRight, InView 200 100 r) :=
  renderFrame_rects_in_viewport ⟨200, 100, 60, 0, 0, 1000, false⟩
    [⟨"A", "X", 5, 1, 0, 50⟩] [] 0 (by decide) (by norm_num)

set_option maxRecDepth 40000 in
/-- C1 counterexample: two equal-priority on-screen candidates whose label
rectangles coincide (viewport height 24 clamps every probed slot to `y = 0`).
Candidate `B` passes the distance filter (`1 ≤ 1000`) and is within the FOV,
but loses the collision search and its key is *not* in the frame's
visible-target set — refuting the claim that every distance-filtered
candidate contributes its key. -/
theorem renderFrame_dropped_candidate_not_targeted :
    (1 : ℚ) ≤ 1000 ∧
    "B|X" ∉ (renderFrame ⟨200, 24, 60, 0, 0, 1000, false⟩
      [⟨"A", "X", 5, 1, 0, 50⟩, ⟨"B", "X", 5, 1, 0, 50⟩] [] 0).1.visibleKeys :=
  ⟨by norm_num, by decide⟩

/-- C1 (amended): the loop's visible-target set grows monotonically; an
off-screen candidate always contributes its key; but an on-screen candidate
contributes its key **iff** it was already present or a rectangle was actually
placed for it this iteration — a candidate dropped because the vertical search
found no slot contributes nothing. -/
theorem stepCandidate_visible_target_policy (p : RenderParams) (hY : ℚ)
    (a0 : List (String × ℚ)) (st : FrameState) (it : Candidate) :
    (∀ k ∈ st.visibleKeys, k ∈ (stepCandidate p hY a0 st it).visibleKeys) ∧
    (isWithinFov (wrap180 (it.bearing - p.headingDeg)) p.hfovDeg = false →
      keyOfCand it ∈ (stepCandidate p hY a0 st it).visibleKeys) ∧
    (isWithinFov (wrap180 (it.bearing - p.headingDeg)) p.hfovDeg = true →
      (keyOfCand it ∈ (stepCandidate p hY a0 st it).visibleKeys ↔
        keyOfCand it ∈ st.visibleKeys ∨
        (stepCandidate p hY a0 st it).placed ≠ st.placed)) := by
  refine ⟨stepCandidate_visible_superset p hY a0 st it, ?_, ?_⟩
  · exact stepCandidate_offscreen_adds p hY a0 st it
  · intro hon
    rw [stepCandidate, if_pos hon]
    exact stepOnScreen_visible_iff _ _ _ _ _ _

theorem stepCandidate_visible_target_policy_witness :
    keyOfCand ⟨"A", "X", 5, 1, 90, 50⟩ ∈
      (stepCandidate ⟨200, 100, 60, 0, 0, 1000, false⟩ 50 [] initFrameState
        ⟨"A", "X", 5, 1, 90, 50⟩).visibleKeys :=
  (stepCandidate_visible_target_policy ⟨200, 100, 60, 0, 0, 1000, false⟩ 50 []
    initFrameState ⟨"A", "X", 5, 1, 90, 50⟩).2.1 (by decide)

/-- C10: with `showOffscreenIndicators` disabled, an out-of-FOV candidate's
loop iteration only records its key in the visible-target set (frame state is
otherwise untouched — no edge rectangle, no draw); consequently, every
in-range out-of-FOV candidate's key is in the frame's visible-target set (so
its alpha keeps animating), while both edge lanes stay empty and no chevron is
ever drawn. -/
theorem offscreen_indicators_disabled_policy (p : RenderParams) (hY : ℚ)
    (a0 : List (String × ℚ)) (st : FrameState) (it : Candidate)
    (cities : List Candidate) (dt : ℚ)
    (hflag : p.showOffscreenIndicators = false) :
    (isWithinFov (wrap180 (it.bearing - p.headingDeg)) p.hfovDeg = false →
      stepCandidate p hY a0 st it
        = { st with visibleKeys := addKey (keyOfCand it) st.visibleKeys }) ∧
    (∀ c ∈ cities, c.distKm ≤ p.maxDistanceKm →
      isWithinFov (wrap180 (c.bearing - p.headingDeg)) p.hfovDeg = false →
      keyOfCand c ∈ (renderFrame p cities a0 dt).1.visibleKeys) ∧
    ((renderFrame p cities a0 dt).1.edgeLeft = [] ∧
     (renderFrame p cities a0 dt).1.edgeRight = [] ∧
     ∀ d ∈ (renderFrame p cities a0 dt).1.draws, d.isChevron = false) := by
  refine ⟨?_, ?_, ?_⟩
  · intro hoff
    rw [stepCandidate, if_neg (by simp [hoff])]
    exact stepOffScreen_flag_false _ _ _ _ _ _ _ hflag
  · intro c hc hdist hoff
    exact foldl_offscreen_mem p _ a0 _ initFrameState c
      ((mem_sortByPopDesc c _).mpr
        (List.mem_filter.mpr ⟨hc, by simp [hdist]⟩)) hoff
  · exact foldl_flag_false p _ a0 hflag _ initFrameState rfl rfl
      (fun d hd => absurd hd (List.not_mem_nil d))

theorem offscreen_indicators_disabled_policy_witness :
    stepCandidate ⟨200, 100, 60, 0, 0, 1000, false⟩ 50 [] initFrameState
        ⟨"B", "Y", 5, 1, 90, 50⟩
      = { initFrameState with
          visibleKeys := addKey (keyOfCand ⟨"B", "Y", 5, 1, 90, 50⟩)
            initFrameState.visibleKeys } :=
  (offscreen_indicators_disabled_policy ⟨200, 100, 60, 0, 0, 1000, false⟩ 50 []
    initFrameState ⟨"B", "Y", 5, 1, 90, 50⟩ [] 0 rfl).1 (by decide)

/-- C9: (i) when generic-sensor construction fails, the engine starts on the
device-fusion path (fusion listeners registered, fallback timer armed for
`fallbackDelayMs = 2000` ms — the timer's expiry is the `timeoutFire` event);
(ii) if no device-motion sample and no heading-carrying orientation event has
arrived by the time the timer fires, the engine switches to the virtual
pointer-drag source; (iii) in the virtual source, a drag of `(dx, dy)` pixels
changes the raw heading accumulator by `dx * sensitivityHeading` (0.1 degrees
per pixel), wrapped into `[0, 360)`, and drives pitch by `-dy *
sensitivityPitch`, clamped into `[-89, 89]`. -/
theorem orientation_fallback_and_virtual_drag :
    ((initEngine false).src = OrientationSourceK.deviceFusion ∧
     (initEngine false).fusionActive = true) ∧
    (∀ pre : List SensorEvent,
      (∀ e ∈ pre, isMotionEvent e = false ∧ carriesHeading e = false) →
      (runEngine (initEngine false) (pre ++ [SensorEvent.timeoutFire])).src
        = OrientationSourceK.virtual ∧
      (runEngine (initEngine false)
        (pre ++ [SensorEvent.timeoutFire])).virtualActive = true) ∧
    (∀ (s : EngineState) (x y : ℚ), s.virtualActive = true → s.dragging = true →
      (stepEngine s (.pointerMove x y)).yaw
        = wrap360 (s.yaw + (x - s.lastX) * sensitivityHeading) ∧
      (0 ≤ (stepEngine s (.pointerMove x y)).yaw ∧
        (stepEngine s (.pointerMove x y)).yaw < 360) ∧
      (stepEngine s (.pointerMove x y)).pitch
        = max (-89) (min 89 (s.pitch - (y - s.lastY) * sensitivityPitch))) ∧
    sensitivityHeading = 1 / 10 ∧ sensitivityPitch = 1 / 10 ∧
    fallbackDelayMs = 2000 := by
  refine ⟨⟨rfl, rfl⟩, ?_, ?_, rfl, rfl, rfl⟩
  · intro pre hpre
    obtain ⟨h1, h2, h3⟩ :=
      runEngine_quiet pre (initEngine false) rfl rfl rfl hpre
    have hsplit : runEngine (initEngine false) (pre ++ [SensorEvent.timeoutFire])
        = stepEngine (runEngine (initEngine false) pre) SensorEvent.timeoutFire := by
      rw [runEngine, runEngine, List.foldl_append]
      rfl
    rw [hsplit]
    simp only [stepEngine]
    rw [if_pos ⟨h3, h1, h2⟩]
    exact ⟨rfl, rfl⟩
  · intro s x y hv hd
    simp only [stepEngine]
    rw [if_pos ⟨hv, hd⟩]
    exact ⟨rfl, ⟨(wrap360_spec _).1.1, (wrap360_spec _).1.2⟩, rfl⟩

theorem orientation_fallback_and_virtual_drag_witness :
    ((runEngine (initEngine false)
        ([SensorEvent.pointerDown 0 0] ++ [SensorEvent.timeoutFire])).src
      = OrientationSourceK.virtual ∧
     (runEngine (initEngine false)
        ([SensorEvent.pointerDown 0 0] ++ [SensorEvent.timeoutFire])).virtualActive
      = true) ∧
    (stepEngine ⟨.virtual, 0, 0, 0, 0, none, true, true, true, 0, 0⟩
        (.pointerMove 100 0)).yaw
      = wrap360 (0 + (100 - 0) * sensitivityHeading) :=
  ⟨orientation_fallback_and_virtual_drag.2.1 [SensorEvent.pointerDown 0 0]
      (by decide),
   (orientation_fallback_and_virtual_drag.2.2.1
      ⟨.virtual, 0, 0, 0, 0, none, true, true, true, 0, 0⟩ 100 0 rfl rfl).1⟩

theorem smoothAngle_shortest_path_witness :
    (0 ≤ smoothAngle 2 358 (3 / 20) ∧ smoothAngle 2 358 (3 / 20) < 360) ∧
    ∃ c : ℝ, 0 ≤ c ∧ c < 1 ∧
      wrap180 (smoothAngle 2 358 (3 / 20) - 2) = c * wrap180 (358 - 2) ∧
      |c * wrap180 (358 - 2)| ≤ |wrap180 (358 - 2)| :=
  smoothAngle_shortest_path 2 358 (3 / 20) (by norm_num)

end HorizonAR
